import Mathlib

/-!
Verification of the config-driven news scraper core of this repository:
date normalization (`DateParser` in `scraper/scraper.py`), admission
filtering and configuration loading (`GenericNewsScraper`), and the batch
save pass with its duplicate re-check.

Modelling conventions:
* An instant is a `Nat`: seconds in the single configured local timezone,
  counted from 0000-03-01 of the proleptic Gregorian calendar, so day
  boundaries fall on multiples of 86400.  `timezone.make_aware` of a naive
  result in the configured zone keeps the civil fields, hence is the
  identity on this representation.
* `PyResult` distinguishes a value returned normally from an uncaught
  runtime exception (Python `OverflowError` / `ValueError`): the bounded
  range of `datetime` (years 1..9999) and of `timedelta` (at most
  999999999 days) is modelled explicitly where the code can exceed it.
* Strings are handled as `List Char`; the handful of regular expressions
  of the source are embedded as dedicated matchers whose greedy/backtrack
  behaviour is reproduced for exactly the patterns the code uses.
-/

inductive PyResult (α : Type) where
  | ok (val : α)
  | exn
  deriving DecidableEq

def liftRel : PyResult Nat → PyResult (Option Nat)
  | PyResult.ok t => PyResult.ok (some t)
  | PyResult.exn => PyResult.exn

/-- Proleptic Gregorian leap year. -/
def isLeap (y : Nat) : Bool :=
  (y % 4 == 0 && y % 100 != 0) || y % 400 == 0

def daysInMonth (y m : Nat) : Nat :=
  if m = 2 then (if isLeap y then 29 else 28)
  else if m = 4 ∨ m = 6 ∨ m = 9 ∨ m = 11 then 30
  else 31

/-- Days since 0000-03-01 of a civil date (Gregorian), valid for `1 ≤ y`. -/
def daysFromCivil (y m d : Nat) : Nat :=
  let yAdj := if m ≤ 2 then y - 1 else y
  let era := yAdj / 400
  let yoe := yAdj % 400
  let mp := if 2 < m then m - 3 else m + 9
  let doy := (153 * mp + 2) / 5 + (d - 1)
  let doe := yoe * 365 + yoe / 4 - yoe / 100 + doy
  era * 146097 + doe

/-- Civil date `(y, m, d)` of a day count since 0000-03-01. -/
def civilFromDays (z : Nat) : Nat × Nat × Nat :=
  let era := z / 146097
  let doe := z % 146097
  let yoe := (doe - doe / 1460 + doe / 36524 - doe / 146096) / 365
  let doy := doe - (365 * yoe + yoe / 4 - yoe / 100)
  let mp := (5 * doy + 2) / 153
  let d := doy - (153 * mp + 2) / 5 + 1
  let m := if mp < 10 then mp + 3 else mp - 9
  (if m ≤ 2 then yoe + era * 400 + 1 else yoe + era * 400, m, d)

def mkInstant (y m d h mi s : Nat) : Nat :=
  daysFromCivil y m d * 86400 + h * 3600 + mi * 60 + s

def dayOf (t : Nat) : Nat := t / 86400

def todOf (t : Nat) : Nat := t % 86400

/-- `dt.replace(hour=12, minute=0, second=0, microsecond=0)`. -/
def noonOf (t : Nat) : Nat := dayOf t * 86400 + 43200

/-- Seconds of `datetime.min` (year 1, Jan 1, 00:00) in this epoch. -/
def year1Secs : Nat := 306 * 86400

/-- `now - timedelta(...)` where the delta amounts to `k` seconds: Python
raises `OverflowError` when the result falls before `datetime.min`. -/
def tdSub (now k : Nat) : PyResult Nat :=
  if now < k + year1Secs then PyResult.exn else PyResult.ok (now - k)

/-- `now - relativedelta(months=n)`: calendar-aware month subtraction with
the day clamped to the length of the target month; constructing a result
before year 1 raises. -/
def subMonthsPy (now n : Nat) : PyResult Nat :=
  let c := civilFromDays (now / 86400)
  let total := c.1 * 12 + (c.2.1 - 1)
  if total < n + 12 then PyResult.exn
  else
    let t' := total - n
    let y' := t' / 12
    let m' := t' % 12 + 1
    let d' := min c.2.2 (daysInMonth y' m')
    PyResult.ok (daysFromCivil y' m' d' * 86400 + now % 86400)

/-- `now - relativedelta(years=n)`: same year arithmetic, day clamped
(Feb 29 to Feb 28 in a non-leap target year); year below 1 raises. -/
def subYearsPy (now n : Nat) : PyResult Nat :=
  let c := civilFromDays (now / 86400)
  if c.1 < n + 1 then PyResult.exn
  else
    let y' := c.1 - n
    let d' := min c.2.2 (daysInMonth y' c.2.1)
    PyResult.ok (daysFromCivil y' c.2.1 d' * 86400 + now % 86400)

/-- `datetime(year, month, day, 12, 0, 0)` made aware in the configured
zone: `none` models the `ValueError` of an invalid field combination. -/
def mkNoonOpt (y m d : Nat) : Option Nat :=
  if 1 ≤ y ∧ y ≤ 9999 ∧ 1 ≤ m ∧ m ≤ 12 ∧ 1 ≤ d ∧ d ≤ daysInMonth y m then
    some (mkInstant y m d 12 0 0)
  else none

inductive RelUnit where
  | hours | minutes | days | weeks | months | years
  deriving DecidableEq

/-- Application of one matched unit in `parse_relative_time`: the
`timedelta` constructor itself overflows when the normalized day count
exceeds 999999999. -/
def applyRelUnit (now n : Nat) : RelUnit → PyResult Nat
  | RelUnit.hours => if 999999999 < n / 24 then PyResult.exn else tdSub now (n * 3600)
  | RelUnit.minutes => if 999999999 < n / 1440 then PyResult.exn else tdSub now (n * 60)
  | RelUnit.days => if 999999999 < n then PyResult.exn else tdSub now (n * 86400)
  | RelUnit.weeks => if 999999999 < 7 * n then PyResult.exn else tdSub now (n * 604800)
  | RelUnit.months => subMonthsPy now n
  | RelUnit.years => subYearsPy now n

/-! ### Character classes and basic string operations (Python `re` model) -/

/-- Python `\s` (ASCII range). -/
def isWS (c : Char) : Bool :=
  c = ' ' || c = '\t' || c = '\n' || c = '\r' || c = Char.ofNat 11 || c = Char.ofNat 12

/-- Python `\w` (ASCII range). -/
def isWordC (c : Char) : Bool := c.isAlphanum || c = '_'

def lcList (l : List Char) : List Char := l.map Char.toLower

/-- `str.strip()`. -/
def trimWS (l : List Char) : List Char :=
  ((l.dropWhile isWS).reverse.dropWhile isWS).reverse

/-- `needle in hay` (substring containment). -/
def hasSub (needle : List Char) : List Char → Bool
  | [] => needle.isEmpty
  | c :: cs => needle.isPrefixOf (c :: cs) || hasSub needle cs

/-- Case-insensitive literal match at the head; the literal is given in
lowercase.  Returns the rest of the input on success. -/
def matchLitCI : List Char → List Char → Option (List Char)
  | [], l => some l
  | _ :: _, [] => none
  | a :: as, c :: cs => if c.toLower = a then matchLitCI as cs else none

def natOfDigits (ds : List Char) : Nat :=
  ds.foldl (fun a c => a * 10 + (c.toNat - '0'.toNat)) 0

/-! ### The boilerplate-stripping substitutions of `parse_date` -/

/-- Length of a match of `BY\s+[\w\s]+\s*` (IGNORECASE) at the head: after
`by` the regex consumes the whole maximal run of word/space characters,
which must start with whitespace and have length at least 2. -/
def byMatchLen (l : List Char) : Option Nat :=
  match matchLitCI ['b', 'y'] l with
  | none => none
  | some rest =>
    match rest with
    | [] => none
    | c :: _ =>
      if isWS c then
        let w := (rest.takeWhile (fun x => isWordC x || isWS x)).length
        if 2 ≤ w then some (2 + w) else none
      else none

/-- Length of a match of `<verb>\s+on\s*` (IGNORECASE) at the head, for
the verbs `posted`, `published`, `updated`. -/
def verbOnMatchLen (verb : List Char) (l : List Char) : Option Nat :=
  match matchLitCI verb l with
  | none => none
  | some r1 =>
    let s1 := (r1.takeWhile isWS).length
    if s1 = 0 then none
    else
      match matchLitCI ['o', 'n'] (r1.drop s1) with
      | none => none
      | some r2 => some (verb.length + s1 + 2 + (r2.takeWhile isWS).length)

/-- Length of a match of `•` at the head. -/
def bulletMatchLen : List Char → Option Nat
  | c :: _ => if c = '•' then some 1 else none
  | [] => none

/-- Length of a match of `\|\s*` at the head. -/
def pipeMatchLen : List Char → Option Nat
  | c :: cs => if c = '|' then some (1 + (cs.takeWhile isWS).length) else none
  | [] => none

/-- Length of a match of `\s-\s` at the head. -/
def dashMatchLen : List Char → Option Nat
  | a :: b :: c :: _ =>
    if isWS a && b = '-' && isWS c then some 3 else none
  | _ => none

/-- `re.sub(pattern, ' ', text)`: scan left to right, replace each
leftmost match by one space and continue after it. -/
def reSubAux (m : List Char → Option Nat) : Nat → List Char → List Char
  | 0, l => l
  | _ + 1, [] => []
  | fuel + 1, c :: cs =>
    match m (c :: cs) with
    | some (n + 1) => ' ' :: reSubAux m fuel ((c :: cs).drop (n + 1))
    | _ => c :: reSubAux m fuel cs

def reSub (m : List Char → Option Nat) (l : List Char) : List Char :=
  reSubAux m l.length l

def cleanStep (m : List Char → Option Nat) (l : List Char) : List Char :=
  trimWS (reSub m l)

/-- `re.sub(r'[,|•]', ' ', text)`. -/
def commaPipeBullet (c : Char) : Char :=
  if c = ',' || c = '|' || c = '•' then ' ' else c

/-- The cleaning pass of `parse_date` (patterns applied in source order,
each followed by `strip()`, then the separator-to-space substitution). -/
def cleanDateText (l : List Char) : List Char :=
  let t0 := trimWS l
  let t1 := cleanStep byMatchLen t0
  let t2 := cleanStep byMatchLen t1
  let t3 := cleanStep (verbOnMatchLen ("posted".toList)) t2
  let t4 := cleanStep (verbOnMatchLen ("published".toList)) t3
  let t5 := cleanStep (verbOnMatchLen ("updated".toList)) t4
  let t6 := cleanStep bulletMatchLen t5
  let t7 := cleanStep pipeMatchLen t6
  let t8 := cleanStep dashMatchLen t7
  trimWS (t8.map commaPipeBullet)

/-! ### `DateParser.parse_relative_time` -/

/-- Match of `(\d+)\s+<unit>` (IGNORECASE) at the head: a maximal nonempty
digit run, nonempty whitespace, then the unit literal; yields the captured
number. -/
def numBeforeAt (lit : List Char) (l : List Char) : Option Nat :=
  let ds := l.takeWhile Char.isDigit
  if ds.length = 0 then none
  else
    let r1 := l.drop ds.length
    let s1 := (r1.takeWhile isWS).length
    if s1 = 0 then none
    else
      match matchLitCI lit (r1.drop s1) with
      | some _ => some (natOfDigits ds)
      | none => none

/-- `re.search(r'(\d+)\s+<unit>', text, re.IGNORECASE)`: leftmost match. -/
def searchNumBefore (lit : List Char) : List Char → Option Nat
  | [] => none
  | c :: cs =>
    match numBeforeAt lit (c :: cs) with
    | some n => some n
    | none => searchNumBefore lit cs

/-- The pattern list of `parse_relative_time`, in source order. -/
def relPatterns : List (List Char × RelUnit) :=
  [("hour".toList, RelUnit.hours), ("hr".toList, RelUnit.hours),
   ("minute".toList, RelUnit.minutes), ("min".toList, RelUnit.minutes),
   ("day".toList, RelUnit.days), ("week".toList, RelUnit.weeks),
   ("month".toList, RelUnit.months), ("year".toList, RelUnit.years)]

def findRelMatch : List (List Char × RelUnit) → List Char → Option (Nat × RelUnit)
  | [], _ => none
  | (lit, u) :: rest, text =>
    match searchNumBefore lit text with
    | some n => some (n, u)
    | none => findRelMatch rest text

/-- `DateParser.parse_relative_time`: first pattern with a match wins;
no match returns `None`. -/
def parseRelativeTime (now : Nat) (text : List Char) : PyResult (Option Nat) :=
  match findRelMatch relPatterns text with
  | none => PyResult.ok none
  | some (n, u) => liftRel (applyRelUnit now n u)

/-! ### `DateParser.manual_parse` -/

/-- `re.match(r'([A-Za-z]{3,9})\s+(\d{1,2}),\s+(\d{4})', text)`: anchored;
the letter run must have length 3..9 (a longer run cannot match, since the
character after a shorter prefix would be a letter, not whitespace), the
day run exactly 1..2 digits before the comma, the year the first 4 of at
least 4 digits.  Trailing text is allowed. -/
def monthMatch (l : List Char) : Option (List Char × Nat × Nat) :=
  let letters := l.takeWhile Char.isAlpha
  if 3 ≤ letters.length ∧ letters.length ≤ 9 then
    let r1 := l.drop letters.length
    let s1 := (r1.takeWhile isWS).length
    if 1 ≤ s1 then
      let r2 := r1.drop s1
      let ds := r2.takeWhile Char.isDigit
      if 1 ≤ ds.length ∧ ds.length ≤ 2 then
        match r2.drop ds.length with
        | ',' :: r4 =>
          let s2 := (r4.takeWhile isWS).length
          if 1 ≤ s2 then
            let ys := (r4.drop s2).takeWhile Char.isDigit
            if 4 ≤ ys.length then
              some (letters, natOfDigits ds, natOfDigits (ys.take 4))
            else none
          else none
        | _ => none
      else none
    else none
  else none

/-- The `month_dict` of `manual_parse` (no `sept` key). -/
def monthDict : List (List Char × Nat) :=
  [("jan".toList, 1), ("feb".toList, 2), ("mar".toList, 3), ("apr".toList, 4),
   ("may".toList, 5), ("jun".toList, 6), ("jul".toList, 7), ("aug".toList, 8),
   ("sep".toList, 9), ("oct".toList, 10), ("nov".toList, 11), ("dec".toList, 12),
   ("january".toList, 1), ("february".toList, 2), ("march".toList, 3),
   ("april".toList, 4), ("june".toList, 6), ("july".toList, 7),
   ("august".toList, 8), ("september".toList, 9), ("october".toList, 10),
   ("november".toList, 11), ("december".toList, 12)]

/-- `month_dict.get(month_str.lower(), 1)`. -/
def monthLookup (w : List Char) : Nat :=
  (monthDict.lookup (lcList w)).getD 1

/-- `re.match(r'(\d{1,2})/(\d{1,2})/(\d{4})', text)`: anchored; each part
is a digit run of exact length 1..2 followed by `/` (a third digit defeats
backtracking), the year the first 4 of at least 4 digits. -/
def slashMatch (l : List Char) : Option (Nat × Nat × Nat) :=
  let d1 := l.takeWhile Char.isDigit
  if 1 ≤ d1.length ∧ d1.length ≤ 2 then
    match l.drop d1.length with
    | '/' :: r1 =>
      let d2 := r1.takeWhile Char.isDigit
      if 1 ≤ d2.length ∧ d2.length ≤ 2 then
        match r1.drop d2.length with
        | '/' :: r2 =>
          let ys := r2.takeWhile Char.isDigit
          if 4 ≤ ys.length then
            some (natOfDigits d1, natOfDigits d2, natOfDigits (ys.take 4))
          else none
        | _ => none
      else none
    | _ => none
  else none

/-- `DateParser.manual_parse`; a `ValueError` escaping it is caught by the
caller and observed as `none`, which is how it is modelled here.  In the
month branch a raise skips the slash branch, matching the source. -/
def manualParse (l : List Char) : Option Nat :=
  match monthMatch (trimWS l) with
  | some (w, d, y) => mkNoonOpt y (monthLookup w) d
  | none =>
    match slashMatch (trimWS l) with
    | some (p1, p2, y) =>
      (match mkNoonOpt y p1 p2 with
       | some dt => some dt
       | none => mkNoonOpt y p2 p1)
    | none => none

/-! ### `DateParser.parse_date` and display formatting -/

/-- The post-processing of a successful `dateutil` fuzzy parse (the parse
itself is an external library, abstracted as an oracle): a naive result is
made aware in the configured zone (identity here); a result dated today
keeps its time-of-day, any other date is coerced to noon. -/
def fuzzyPost (now dt : Nat) : Nat :=
  if dayOf dt = dayOf now then dt else noonOf dt

/-- `DateParser.parse_date`.  `oracle` stands for
`dateutil.parser.parse(cleaned_text, fuzzy=True)`: `some` is a successful
parse (already an instant of this model), `none` a raised parse error,
which the source answers by trying `manual_parse` with all its exceptions
swallowed. -/
def parseDate (oracle : List Char → Option Nat) (now : Nat) (dateText : List Char) :
    PyResult (Option Nat) :=
  if trimWS dateText = [] then PyResult.ok none
  else if hasSub ("ago".toList) (lcList (cleanDateText dateText)) then
    parseRelativeTime now (cleanDateText dateText)
  else if hasSub ("today".toList) (lcList (cleanDateText dateText)) then
    PyResult.ok (some (noonOf now))
  else if hasSub ("yesterday".toList) (lcList (cleanDateText dateText)) then
    PyResult.ok (some (noonOf (now - 86400)))
  else
    match oracle (cleanDateText dateText) with
    | some dt => PyResult.ok (some (fuzzyPost now dt))
    | none => PyResult.ok (manualParse (cleanDateText dateText))

def monthAbbrev : Nat → String
  | 1 => "Jan" | 2 => "Feb" | 3 => "Mar" | 4 => "Apr" | 5 => "May" | 6 => "Jun"
  | 7 => "Jul" | 8 => "Aug" | 9 => "Sep" | 10 => "Oct" | 11 => "Nov" | 12 => "Dec"
  | _ => ""

def pad2 (n : Nat) : String :=
  if n < 10 then "0" ++ toString n else toString n

/-- `DateParser.format_date_for_display`: `strftime('%b %d, %Y')`, with
`"N/A"` for an absent instant. -/
def formatDateForDisplay : Option Nat → String
  | none => "N/A"
  | some t =>
    let c := civilFromDays (dayOf t)
    monthAbbrev c.2.1 ++ " " ++ pad2 c.2.2 ++ ", " ++ toString c.1

/-! ### `GenericNewsScraper`: admission filtering -/

/-- The fields of one extracted candidate that the admission logic reads
(`article_data` entries `title`, `link`, `published_date`). -/
structure RawRecord where
  title : Option String
  link : Option String
  published : Option Nat
  deriving DecidableEq

/-- `str.startswith(p)`. -/
def pyStartsWith (s p : String) : Bool := p.toList.isPrefixOf s.toList

/-- `GenericNewsScraper.validate_article`: Python truthiness of the two
`get` calls, then the length and scheme checks. -/
def validate_article (r : RawRecord) : Bool :=
  match r.title, r.link with
  | some t, some l =>
    !(t == "") && !(l == "") && decide (10 < t.length) && pyStartsWith l "http"
  | _, _ => false

/-- `link not in self.existing_links` (an absent link is never in a set of
strings). -/
def isNewLink (existing : List String) (r : RawRecord) : Bool :=
  match r.link with
  | none => true
  | some l => !(existing.contains l)

/-- `article_data.get('published_date') and published_date >= cutoff`. -/
def isRecent (cutoff : Nat) (r : RawRecord) : Bool :=
  match r.published with
  | none => false
  | some t => decide (cutoff ≤ t)

/-- `self.cutoff_time = timezone.now() - timedelta(hours=25)`. -/
def cutoffTime (now : Nat) : Nat := now - 25 * 3600

inductive AdmitResult where
  | admitted
  | rejectedInvalid
  | rejectedDuplicate
  | rejectedStale
  deriving DecidableEq

/-- The filtering chain of `scrape_website` (lines 221-248): admit when
valid, new and recent; otherwise the `elif` ladder reports the first
applicable reason in the order invalid, duplicate, stale. -/
def classify (existing : List String) (cutoff : Nat) (r : RawRecord) : AdmitResult :=
  if validate_article r && isNewLink existing r && isRecent cutoff r then
    AdmitResult.admitted
  else if !(validate_article r) then AdmitResult.rejectedInvalid
  else if !(isNewLink existing r) then AdmitResult.rejectedDuplicate
  else AdmitResult.rejectedStale

/-- The per-site loop of `scrape_website` collects admitted records; it
reads `self.existing_links` but never writes it. -/
def filterSite (existing : List String) (cutoff : Nat) (records : List RawRecord) :
    List RawRecord :=
  records.filter (fun r => classify existing cutoff r == AdmitResult.admitted)

/-- The date part of `extract_article_data`: a parsed date fills both
`published_date` and the display `date`; a failed parse leaves both
absent while the record itself is still returned. -/
def extractDateFields (parsed : Option Nat) : Option Nat × Option String :=
  match parsed with
  | some dt => (some dt, some (formatDateForDisplay (some dt)))
  | none => (none, none)

/-! ### `GenericNewsScraper.load_config` -/

/-- A parsed JSON config file: its top-level keys, and the keys of the
`article` object when that key is present. -/
structure JsonConfig where
  topFields : List String
  articleFields : List String
  deriving DecidableEq

/-- `load_config` checks only that the keys `base_url` and `article`
exist; `none` models the skipped file. -/
def loadConfig (c : JsonConfig) : Option JsonConfig :=
  if c.topFields.contains "base_url" && c.topFields.contains "article" then some c
  else none

/-! ### `GenericNewsScraper.save_articles` -/

structure SaveState where
  db : List String
  links : List String
  saved : Nat
  deriving DecidableEq

/-- One iteration of `save_articles`: the database existence re-check
skips a duplicate link; otherwise the article is created and its link
added to `existing_links`. -/
def saveOne (st : SaveState) (r : RawRecord) : SaveState :=
  let l := r.link.getD ""
  if st.db.contains l then st
  else { db := l :: st.db, links := l :: st.links, saved := st.saved + 1 }

def saveArticles (db links : List String) (articles : List RawRecord) : SaveState :=
  articles.foldl saveOne { db := db, links := links, saved := 0 }

/-! ### Definitions taken from the specification's words, for comparison
with the code (refinement claims only) -/

/-- Modelled from the spec: the unit-token alphabet of the relative-phrase
rule, used to read off "the leading integer and a unit token" — the
leftmost position where an integer, whitespace and a known unit word
occur. -/
def specUnitWords : List (List Char × RelUnit) :=
  [("minute".toList, RelUnit.minutes), ("min".toList, RelUnit.minutes),
   ("hour".toList, RelUnit.hours), ("hr".toList, RelUnit.hours),
   ("day".toList, RelUnit.days), ("week".toList, RelUnit.weeks),
   ("month".toList, RelUnit.months), ("year".toList, RelUnit.years)]

def specUnitAt (l : List Char) : Option (Nat × RelUnit) :=
  (specUnitWords.filterMap (fun p =>
    (numBeforeAt p.1 l).map (fun n => (n, p.2)))).head?

/-- Modelled from the spec: scan left to right for the first
number-then-unit occurrence, so the extracted pair is the leading one. -/
def specLeadingPair : List Char → Option (Nat × RelUnit)
  | [] => none
  | c :: cs =>
    match specUnitAt (c :: cs) with
    | some p => some p
    | none => specLeadingPair cs

/-- Modelled from the spec: the fuzzy-step post-processing as §4.2 words
it — the noon coercion applies only when the parser yielded no explicit
time-of-day. -/
def specFuzzyPost (now dt : Nat) (hasExplicitTime : Bool) : Nat :=
  if hasExplicitTime then dt
  else if dayOf dt = dayOf now then dt else noonOf dt

/-- Modelled from the spec: admission that inserts each admitted link into
the existing-link set immediately, so later duplicates are rejected. -/
def specFilterAdmit (cutoff : Nat) : List String → List RawRecord → List RawRecord
  | _, [] => []
  | ex, r :: rs =>
    if classify ex cutoff r == AdmitResult.admitted then
      r :: specFilterAdmit cutoff (r.link.getD "" :: ex) rs
    else specFilterAdmit cutoff ex rs

/-- A fixed batch-start instant used by concrete counterexamples:
2024-03-31 15:04:05 local. -/
def sampleNow : Nat := mkInstant 2024 3 31 15 4 5

/-! ## Helper lemmas on the admission predicates -/

theorem validate_iff (r : RawRecord) :
    validate_article r = true ↔
      ((∃ t, r.title = some t ∧ 10 < t.length) ∧
       (∃ l, r.link = some l ∧ pyStartsWith l "http" = true)) := by
  rcases r with ⟨ot, ol, op⟩
  constructor
  · intro h
    cases ot with
    | none => simp [validate_article] at h
    | some t =>
      cases ol with
      | none => simp [validate_article] at h
      | some l =>
        simp only [validate_article, Bool.and_eq_true, decide_eq_true_eq] at h
        exact ⟨⟨t, rfl, h.1.2⟩, ⟨l, rfl, h.2⟩⟩
  · rintro ⟨⟨t, ht, hlen⟩, ⟨l, hl, hsw⟩⟩
    simp only at ht hl
    subst ht
    subst hl
    simp only [validate_article, Bool.and_eq_true, decide_eq_true_eq,
      Bool.not_eq_true', beq_eq_false_iff_ne, ne_eq]
    refine ⟨⟨⟨?_, ?_⟩, hlen⟩, hsw⟩
    · intro he
      subst he
      exact absurd hlen (by decide)
    · intro he
      subst he
      exact absurd hsw (by decide)

theorem isNewLink_iff (ex : List String) (r : RawRecord) :
    isNewLink ex r = true ↔ ¬ ∃ l, r.link = some l ∧ l ∈ ex := by
  rcases r with ⟨ot, ol, op⟩
  cases ol with
  | none => simp [isNewLink]
  | some l => simp [isNewLink]

theorem isRecent_iff (cutoff : Nat) (r : RawRecord) :
    isRecent cutoff r = true ↔ ∃ p, r.published = some p ∧ cutoff ≤ p := by
  rcases r with ⟨ot, ol, op⟩
  cases op with
  | none => simp [isRecent]
  | some p => simp [isRecent]

/-! ## Claim C1 -/

/-- Claim C1: the admission filter admits a record exactly when it is
valid (title present with length above 10, link present and starting with
the http(s) scheme text), its link is not in the existing-link set, and
its published instant is present and not earlier than the cutoff; the
rejection reason is determined in the fixed order invalid, then
duplicate, then stale, first applicable reported; a record whose title
has length exactly 10 is rejected as invalid, and one with title length
11 and a valid http link is admitted when also recent and new. -/
theorem c1_admission_filter :
    (∀ (ex : List String) (cutoff : Nat) (r : RawRecord),
      (classify ex cutoff r = AdmitResult.admitted ↔
        (((∃ t, r.title = some t ∧ 10 < t.length) ∧
          (∃ l, r.link = some l ∧ pyStartsWith l "http" = true)) ∧
         (¬ ∃ l, r.link = some l ∧ l ∈ ex) ∧
         (∃ p, r.published = some p ∧ cutoff ≤ p))) ∧
      (classify ex cutoff r = AdmitResult.rejectedInvalid ↔
        ¬ ((∃ t, r.title = some t ∧ 10 < t.length) ∧
           (∃ l, r.link = some l ∧ pyStartsWith l "http" = true))) ∧
      (classify ex cutoff r = AdmitResult.rejectedDuplicate ↔
        (((∃ t, r.title = some t ∧ 10 < t.length) ∧
          (∃ l, r.link = some l ∧ pyStartsWith l "http" = true)) ∧
         ¬ ¬ ∃ l, r.link = some l ∧ l ∈ ex)) ∧
      (classify ex cutoff r = AdmitResult.rejectedStale ↔
        (((∃ t, r.title = some t ∧ 10 < t.length) ∧
          (∃ l, r.link = some l ∧ pyStartsWith l "http" = true)) ∧
         (¬ ∃ l, r.link = some l ∧ l ∈ ex) ∧
         ¬ ∃ p, r.published = some p ∧ cutoff ≤ p))) ∧
    (∀ (ex : List String) (cutoff : Nat) (p : Option Nat),
      classify ex cutoff ⟨some "0123456789", some "http://site/x", p⟩ =
        AdmitResult.rejectedInvalid) ∧
    (∀ (ex : List String) (cutoff p : Nat), cutoff ≤ p → "http://site/y" ∉ ex →
      classify ex cutoff ⟨some "0123456789a", some "http://site/y", some p⟩ =
        AdmitResult.admitted) := by
  have hmain : ∀ (ex : List String) (cutoff : Nat) (r : RawRecord),
      (classify ex cutoff r = AdmitResult.admitted ↔
        (((∃ t, r.title = some t ∧ 10 < t.length) ∧
          (∃ l, r.link = some l ∧ pyStartsWith l "http" = true)) ∧
         (¬ ∃ l, r.link = some l ∧ l ∈ ex) ∧
         (∃ p, r.published = some p ∧ cutoff ≤ p))) ∧
      (classify ex cutoff r = AdmitResult.rejectedInvalid ↔
        ¬ ((∃ t, r.title = some t ∧ 10 < t.length) ∧
           (∃ l, r.link = some l ∧ pyStartsWith l "http" = true))) ∧
      (classify ex cutoff r = AdmitResult.rejectedDuplicate ↔
        (((∃ t, r.title = some t ∧ 10 < t.length) ∧
          (∃ l, r.link = some l ∧ pyStartsWith l "http" = true)) ∧
         ¬ ¬ ∃ l, r.link = some l ∧ l ∈ ex)) ∧
      (classify ex cutoff r = AdmitResult.rejectedStale ↔
        (((∃ t, r.title = some t ∧ 10 < t.length) ∧
          (∃ l, r.link = some l ∧ pyStartsWith l "http" = true)) ∧
         (¬ ∃ l, r.link = some l ∧ l ∈ ex) ∧
         ¬ ∃ p, r.published = some p ∧ cutoff ≤ p)) := by
    intro ex cutoff r
    rw [← validate_iff r, ← isNewLink_iff ex r, ← isRecent_iff cutoff r]
    unfold classify
    cases hV : validate_article r <;> cases hN : isNewLink ex r <;>
      cases hR : isRecent cutoff r <;> simp
  refine ⟨hmain, ?_, ?_⟩
  · intro ex cutoff p
    have hv : validate_article ⟨some "0123456789", some "http://site/x", p⟩ = false := rfl
    apply ((hmain ex cutoff _).2.1).mpr
    rw [← validate_iff]
    simp [hv]
  · intro ex cutoff p hp hne
    apply ((hmain ex cutoff _).1).mpr
    refine ⟨⟨⟨"0123456789a", rfl, by decide⟩, ⟨"http://site/y", rfl, by decide⟩⟩, ?_, ⟨p, rfl, hp⟩⟩
    rintro ⟨l, hl, hm⟩
    cases hl
    exact hne hm

/-- Concrete admission through `c1_admission_filter`: a record with an
11-character title, an http link absent from a nonempty existing-link
set, and a publication instant at the cutoff is admitted. -/
theorem c1_admission_filter_witness :
    classify ["http://other"] 100 ⟨some "0123456789a", some "http://site/y", some 100⟩ =
      AdmitResult.admitted :=
  c1_admission_filter.2.2 ["http://other"] 100 100 (by decide) (by decide)

/-! ## Claim C2 -/

/-- Claim C2 counterexample: a configuration whose `article` object lacks
the `container`, `link` and `title` selectors is accepted by
`load_config` rather than rejected wholesale — only the presence of the
top-level keys `base_url` and `article` is checked. -/
theorem c2_load_counterexample :
    loadConfig ⟨["base_url", "article"], []⟩ = some ⟨["base_url", "article"], []⟩ ∧
    ("container" ∈ (JsonConfig.mk ["base_url", "article"] []).articleFields → False) := by
  constructor
  · decide
  · intro h
    simp at h

/-- Claim C2 amended: loading rejects a configuration wholesale exactly
when the top-level `base_url` or `article` key is missing; the
`article.container` / `article.link` / `article.title` selectors are not
validated at load time; a configuration with all four fields is accepted,
and an unknown extra field changes nothing. -/
theorem c2_load_amended :
    (∀ c : JsonConfig,
      loadConfig c = some c ↔
        "base_url" ∈ c.topFields ∧ "article" ∈ c.topFields) ∧
    (∀ extra : String,
      loadConfig ⟨["base_url", "article", extra], ["container", "link", "title", extra]⟩ =
        some ⟨["base_url", "article", extra], ["container", "link", "title", extra]⟩) := by
  constructor
  · intro c
    rw [loadConfig]
    split
    · rename_i h
      simp only [Bool.and_eq_true] at h
      constructor
      · intro _
        constructor
        · have := h.1
          simpa using this
        · have := h.2
          simpa using this
      · intro _
        rfl
    · rename_i h
      simp only [Bool.and_eq_true, not_and] at h
      constructor
      · intro he
        exact absurd he (by simp)
      · intro hm
        exfalso
        rcases Bool.not_eq_true _ ▸ (fun hh => h hh) with _
        have h1 : c.topFields.contains "base_url" = true := by simpa using hm.1
        have h2 : c.topFields.contains "article" = true := by simpa using hm.2
        rw [h1, h2] at h
        simp at h
  · intro extra
    rfl

/-! ## Claim C3 -/

/-- Claim C3: the recency cutoff is the batch-start instant minus 25
hours; a valid, non-duplicate record published 24 hours before the batch
start is admitted, one published 26 hours before is rejected as stale,
and a record with an absent published instant is never admitted (and is
classified stale when valid and new). -/
theorem c3_recency_cutoff :
    (∀ now : Nat, cutoffTime now = now - 25 * 3600) ∧
    (∀ (now : Nat) (ex : List String) (r : RawRecord),
      validate_article r = true → isNewLink ex r = true →
      r.published = some (now - 24 * 3600) →
      classify ex (cutoffTime now) r = AdmitResult.admitted) ∧
    (∀ (now : Nat) (ex : List String) (r : RawRecord),
      validate_article r = true → isNewLink ex r = true → 25 * 3600 < now →
      r.published = some (now - 26 * 3600) →
      classify ex (cutoffTime now) r = AdmitResult.rejectedStale) ∧
    (∀ (ex : List String) (cutoff : Nat) (r : RawRecord),
      r.published = none →
      classify ex cutoff r ≠ AdmitResult.admitted ∧
      (validate_article r = true → isNewLink ex r = true →
        classify ex cutoff r = AdmitResult.rejectedStale)) := by
  refine ⟨fun _ => rfl, ?_, ?_, ?_⟩
  · intro now ex r hv hn hp
    have hrec : isRecent (cutoffTime now) r = true := by
      simp only [isRecent, hp, decide_eq_true_eq]
      show now - 25 * 3600 ≤ now - 24 * 3600
      omega
    simp [classify, hv, hn, hrec]
  · intro now ex r hv hn h25 hp
    have hrec : isRecent (cutoffTime now) r = false := by
      simp only [isRecent, hp, decide_eq_false_iff_not]
      show ¬ (now - 25 * 3600 ≤ now - 26 * 3600)
      omega
    simp [classify, hv, hn, hrec]
  · intro ex cutoff r hp
    have hrec : isRecent cutoff r = false := by
      simp [isRecent, hp]
    constructor
    · cases hV : validate_article r <;> cases hN : isNewLink ex r <;>
        simp [classify, hV, hN, hrec]
    · intro hv hn
      simp [classify, hv, hn, hrec]

/-- Concrete boundary instances through `c3_recency_cutoff`: at a batch
start of 200000 s, a record 24 h old is admitted and a record 26 h old is
rejected as stale. -/
theorem c3_recency_cutoff_witness :
    classify [] (cutoffTime 200000)
      ⟨some "a fresh example title", some "http://n.example/a", some (200000 - 24 * 3600)⟩ =
      AdmitResult.admitted ∧
    classify [] (cutoffTime 200000)
      ⟨some "a fresh example title", some "http://n.example/a", some (200000 - 26 * 3600)⟩ =
      AdmitResult.rejectedStale :=
  ⟨c3_recency_cutoff.2.1 200000 [] _ (by decide) (by decide) rfl,
   c3_recency_cutoff.2.2.1 200000 [] _ (by decide) (by decide) (by decide) rfl⟩

/-! ## Claim C4 -/

/-- Claim C4 counterexample: a record admitted by the filtering loop does
not get its link added to the existing-link set there, so an identical
later record in the same batch is admitted again rather than seen as a
duplicate; the spec-modelled filter that inserts links at admission time
keeps only the first copy. -/
theorem c4_linkset_counterexample :
    classify [] (cutoffTime sampleNow)
      ⟨some "a sufficiently long title", some "http://example.com/x",
       some (sampleNow - 3600)⟩ = AdmitResult.admitted ∧
    filterSite [] (cutoffTime sampleNow)
      [⟨some "a sufficiently long title", some "http://example.com/x",
        some (sampleNow - 3600)⟩,
       ⟨some "a sufficiently long title", some "http://example.com/x",
        some (sampleNow - 3600)⟩] =
      [⟨some "a sufficiently long title", some "http://example.com/x",
        some (sampleNow - 3600)⟩,
       ⟨some "a sufficiently long title", some "http://example.com/x",
        some (sampleNow - 3600)⟩] ∧
    specFilterAdmit (cutoffTime sampleNow) []
      [⟨some "a sufficiently long title", some "http://example.com/x",
        some (sampleNow - 3600)⟩,
       ⟨some "a sufficiently long title", some "http://example.com/x",
        some (sampleNow - 3600)⟩] =
      [⟨some "a sufficiently long title", some "http://example.com/x",
        some (sampleNow - 3600)⟩] := by
  refine ⟨by decide, by decide, by decide⟩

/-- Claim C4 amended: admission never mutates the existing-link set —
an admitted record repeated in the same batch is admitted again by the
filter; intra-batch deduplication happens only in the save pass, whose
per-article database re-check saves the first copy, skips the later one,
and only then adds the link to the existing-link set. -/
theorem c4_linkset_amended :
    (∀ (ex : List String) (cutoff : Nat) (r : RawRecord),
      classify ex cutoff r = AdmitResult.admitted →
      filterSite ex cutoff [r, r] = [r, r]) ∧
    (∀ (db links : List String) (r : RawRecord) (l : String),
      r.link = some l → l ∉ db →
      (saveArticles db links [r, r]).saved = 1 ∧
      l ∈ (saveArticles db links [r, r]).db ∧
      l ∈ (saveArticles db links [r, r]).links) := by
  constructor
  · intro ex cutoff r h
    simp [filterSite, List.filter, h]
  · intro db links r l hl hnd
    have hc : db.contains l = false := by
      cases hcc : db.contains l
      · rfl
      · exfalso
        exact hnd (by simpa using hcc)
    have hstep : saveArticles db links [r, r] =
        { db := l :: db, links := l :: links, saved := 1 } := by
      simp [saveArticles, List.foldl, saveOne, hl, hc, hnd]
    rw [hstep]
    exact ⟨rfl, by simp, by simp⟩

/-- Concrete save-pass deduplication through `c4_linkset_amended`: two
copies of one admitted record produce a single saved article. -/
theorem c4_linkset_amended_witness :
    filterSite [] (cutoffTime sampleNow)
      [⟨some "a sufficiently long title", some "http://example.com/x",
        some (sampleNow - 3600)⟩,
       ⟨some "a sufficiently long title", some "http://example.com/x",
        some (sampleNow - 3600)⟩] =
      [⟨some "a sufficiently long title", some "http://example.com/x",
        some (sampleNow - 3600)⟩,
       ⟨some "a sufficiently long title", some "http://example.com/x",
        some (sampleNow - 3600)⟩] ∧
    (saveArticles [] []
      [⟨some "a sufficiently long title", some "http://example.com/x",
        some (sampleNow - 3600)⟩,
       ⟨some "a sufficiently long title", some "http://example.com/x",
        some (sampleNow - 3600)⟩]).saved = 1 :=
  ⟨c4_linkset_amended.1 [] (cutoffTime sampleNow) _ (by decide),
   (c4_linkset_amended.2 [] [] _ "http://example.com/x" (by decide) (by decide)).1⟩

/-! ## Claim C5 -/

/-- Claim C5 counterexample: on `"1 day 2 hours ago"` the code does not
extract the leading integer-and-unit pair (1, day) — the hour pattern is
searched first, so it subtracts 2 hours, a different instant. -/
theorem c5_relative_counterexample :
    parseRelativeTime sampleNow ("1 day 2 hours ago".toList) =
      PyResult.ok (some (sampleNow - 7200)) ∧
    specLeadingPair ("1 day 2 hours ago".toList) = some (1, RelUnit.days) ∧
    sampleNow - 7200 ≠ sampleNow - 86400 := by
  refine ⟨by decide, by decide, by decide⟩

/-! ### Structural lemmas for the relative-time search -/

theorem takeWhile_cons_false (p : Char → Bool) (c : Char) (cs : List Char)
    (h : p c = false) : (c :: cs).takeWhile p = [] := by
  simp [List.takeWhile_cons, h]

theorem takeWhile_cons_true (p : Char → Bool) (c : Char) (cs : List Char)
    (h : p c = true) : (c :: cs).takeWhile p = c :: cs.takeWhile p := by
  simp [List.takeWhile_cons, h]

theorem takeWhile_append_all (p : Char → Bool) (xs ys : List Char)
    (h : ∀ x ∈ xs, p x = true) : (xs ++ ys).takeWhile p = xs ++ ys.takeWhile p := by
  induction xs with
  | nil => simp
  | cons x xs ih =>
    have hx : p x = true := h x (by simp)
    rw [List.cons_append, takeWhile_cons_true p x (xs ++ ys) hx,
      ih (fun a ha => h a (by simp [ha]))]
    rfl

theorem mem_takeWhile_pred (p : Char → Bool) (l : List Char) (c : Char)
    (h : c ∈ l.takeWhile p) : p c = true := by
  induction l with
  | nil => simp [List.takeWhile] at h
  | cons a as ih =>
    cases hp : p a
    · rw [takeWhile_cons_false p a as hp] at h
      simp at h
    · rw [takeWhile_cons_true p a as hp] at h
      rcases List.mem_cons.mp h with rfl | h'
      · exact hp
      · exact ih h'

theorem drop_takeWhile_length (p : Char → Bool) (l : List Char) :
    l.drop (l.takeWhile p).length = l.dropWhile p := by
  induction l with
  | nil => rfl
  | cons a as ih =>
    cases hp : p a
    · rw [takeWhile_cons_false p a as hp]
      simp [List.dropWhile_cons, hp]
    · rw [takeWhile_cons_true p a as hp]
      simp only [List.length_cons, List.drop_succ_cons]
      rw [ih]
      simp [List.dropWhile_cons, hp]

theorem isWS_not_digit (c : Char) (h : isWS c = true) : c.isDigit = false := by
  simp only [isWS, Bool.or_eq_true, decide_eq_true_eq] at h
  rcases h with ((((h | h) | h) | h) | h) | h <;> subst h <;> decide

theorem isWS_toLower_self (c : Char) (h : isWS c = true) : c.toLower = c := by
  simp only [isWS, Bool.or_eq_true, decide_eq_true_eq] at h
  rcases h with ((((h | h) | h) | h) | h) | h <;> subst h <;> decide

/-- The anatomy of one `(\d+)\s+<unit>` match at the head of `l`: a
nonempty digit run, nonempty whitespace, then the unit literal, with the
captured number being the integer immediately preceding the unit. -/
theorem numBeforeAt_iff (a : Char) (as : List Char) (ha : isWS a = false)
    (l : List Char) (n : Nat) :
    numBeforeAt (a :: as) l = some n ↔
      ∃ ds ws rest, l = ds ++ (ws ++ rest) ∧ ds ≠ [] ∧ ws ≠ [] ∧
        (∀ c ∈ ds, c.isDigit = true) ∧ (∀ c ∈ ws, isWS c = true) ∧
        (matchLitCI (a :: as) rest).isSome = true ∧ n = natOfDigits ds := by
  constructor
  · intro h
    simp only [numBeforeAt] at h
    by_cases h0 : (l.takeWhile Char.isDigit).length = 0
    · rw [if_pos h0] at h
      cases h
    · rw [if_neg h0] at h
      by_cases h1 :
          ((l.drop (l.takeWhile Char.isDigit).length).takeWhile isWS).length = 0
      · rw [if_pos h1] at h
        cases h
      · rw [if_neg h1] at h
        cases hM : matchLitCI (a :: as)
            ((l.drop (l.takeWhile Char.isDigit).length).drop
              ((l.drop (l.takeWhile Char.isDigit).length).takeWhile isWS).length) with
        | none =>
          rw [hM] at h
          cases h
        | some r =>
          rw [hM] at h
          cases h
          refine ⟨l.takeWhile Char.isDigit,
            (l.drop (l.takeWhile Char.isDigit).length).takeWhile isWS,
            (l.drop (l.takeWhile Char.isDigit).length).drop
              ((l.drop (l.takeWhile Char.isDigit).length).takeWhile isWS).length,
            ?_, ?_, ?_, ?_, ?_, ?_, rfl⟩
          · rw [drop_takeWhile_length isWS, List.takeWhile_append_dropWhile,
              drop_takeWhile_length Char.isDigit, List.takeWhile_append_dropWhile]
          · intro he
            rw [he] at h0
            simp at h0
          · intro he
            rw [he] at h1
            simp at h1
          · intro c hc
            exact mem_takeWhile_pred Char.isDigit l c hc
          · intro c hc
            exact mem_takeWhile_pred isWS _ c hc
          · rw [hM]
            rfl
  · rintro ⟨ds, ws, rest, hl, hds, hws, hdig, hwsall, hm, hn⟩
    subst hn
    obtain ⟨r0, rs, rfl⟩ : ∃ r0 rs, rest = r0 :: rs := by
      cases rest with
      | nil => simp [matchLitCI] at hm
      | cons r0 rs => exact ⟨r0, rs, rfl⟩
    obtain ⟨w0, wtl, rfl⟩ : ∃ w0 wtl, ws = w0 :: wtl := by
      cases ws with
      | nil => exact absurd rfl hws
      | cons w0 wtl => exact ⟨w0, wtl, rfl⟩
    have hr0 : r0.toLower = a := by
      simp only [matchLitCI] at hm
      by_cases hc : r0.toLower = a
      · exact hc
      · rw [if_neg hc] at hm
        simp at hm
    have hr0ws : isWS r0 = false := by
      cases hws0 : isWS r0
      · rfl
      · exfalso
        have hself := isWS_toLower_self r0 hws0
        rw [hself] at hr0
        rw [← hr0, hws0] at ha
        cases ha
    have hw0 : isWS w0 = true := hwsall w0 (by simp)
    have hw0d : w0.isDigit = false := isWS_not_digit w0 hw0
    have hl' : l = ds ++ (w0 :: (wtl ++ (r0 :: rs))) := by
      rw [hl, List.cons_append]
    have h1 : l.takeWhile Char.isDigit = ds := by
      rw [hl', takeWhile_append_all Char.isDigit ds _ hdig,
        takeWhile_cons_false Char.isDigit w0 _ hw0d, List.append_nil]
    have h2 : l.drop ds.length = (w0 :: wtl) ++ (r0 :: rs) := by
      rw [hl]
      exact List.drop_left ds _
    have h3 : ((w0 :: wtl) ++ (r0 :: rs)).takeWhile isWS = w0 :: wtl := by
      rw [takeWhile_append_all isWS _ _ hwsall,
        takeWhile_cons_false isWS r0 _ hr0ws, List.append_nil]
    have h4 : ((w0 :: wtl) ++ (r0 :: rs)).drop (w0 :: wtl).length = r0 :: rs :=
      List.drop_left _ _
    obtain ⟨r, hM⟩ : ∃ r, matchLitCI (a :: as) (r0 :: rs) = some r := by
      cases hMM : matchLitCI (a :: as) (r0 :: rs) with
      | none =>
        rw [hMM] at hm
        simp at hm
      | some r => exact ⟨r, rfl⟩
    have hne1 : ¬(ds.length = 0) := by
      intro h0
      exact hds (List.length_eq_zero.mp h0)
    have hne2 : ¬((w0 :: wtl).length = 0) := by simp
    simp only [numBeforeAt, h1, h2, h3, h4, hM]
    rw [if_neg hne1, if_neg hne2]

/-- `re.search` semantics of the per-unit scan: a success is the match at
the leftmost matching position, every earlier position failing. -/
theorem searchNumBefore_some_iff (lit : List Char) :
    ∀ (text : List Char) (n : Nat),
      searchNumBefore lit text = some n ↔
        ∃ i, numBeforeAt lit (text.drop i) = some n ∧
          ∀ j < i, numBeforeAt lit (text.drop j) = none := by
  intro text
  induction text with
  | nil =>
    intro n
    constructor
    · intro h
      simp [searchNumBefore] at h
    · rintro ⟨i, hi, _⟩
      rw [List.drop_nil] at hi
      rw [show numBeforeAt lit ([] : List Char) = none from rfl] at hi
      cases hi
  | cons c cs ih =>
    intro n
    constructor
    · intro h
      rw [searchNumBefore] at h
      cases hA : numBeforeAt lit (c :: cs) with
      | some m =>
        rw [hA] at h
        cases h
        exact ⟨0, by simpa using hA, by intro j hj; omega⟩
      | none =>
        rw [hA] at h
        obtain ⟨i, hi, hjs⟩ := (ih n).mp h
        refine ⟨i + 1, by simpa using hi, ?_⟩
        intro j hj
        cases j with
        | zero => simpa using hA
        | succ j' =>
          have := hjs j' (by omega)
          simpa using this
    · rintro ⟨i, hi, hjs⟩
      rw [searchNumBefore]
      cases i with
      | zero =>
        rw [List.drop_zero] at hi
        rw [hi]
      | succ i' =>
        have h0 : numBeforeAt lit (c :: cs) = none := by
          have := hjs 0 (by omega)
          simpa using this
        rw [h0]
        refine (ih n).mpr ⟨i', by simpa using hi, ?_⟩
        intro j hj
        have := hjs (j + 1) (by omega)
        simpa using this

/-- A failed per-unit scan fails at every position. -/
theorem searchNumBefore_none_iff (lit : List Char) :
    ∀ text : List Char,
      searchNumBefore lit text = none ↔
        ∀ i, numBeforeAt lit (text.drop i) = none := by
  intro text
  induction text with
  | nil =>
    constructor
    · intro _ i
      rw [List.drop_nil]
      rfl
    · intro _
      rfl
  | cons c cs ih =>
    constructor
    · intro h i
      rw [searchNumBefore] at h
      cases hA : numBeforeAt lit (c :: cs) with
      | some m =>
        rw [hA] at h
        cases h
      | none =>
        rw [hA] at h
        cases i with
        | zero => simpa using hA
        | succ i' =>
          have := ih.mp h i'
          simpa using this
    · intro h
      rw [searchNumBefore]
      have h0 : numBeforeAt lit (c :: cs) = none := by simpa using h 0
      rw [h0]
      refine ih.mpr ?_
      intro i
      have := h (i + 1)
      simpa using this

/-- The pattern list is scanned in its fixed order: a result comes from
the first pattern whose scan succeeds, all earlier patterns failing. -/
theorem findRelMatch_some_iff :
    ∀ (ps : List (List Char × RelUnit)) (text : List Char) (n : Nat) (u : RelUnit),
      findRelMatch ps text = some (n, u) ↔
        ∃ k p, ps.get? k = some p ∧ p.2 = u ∧ searchNumBefore p.1 text = some n ∧
          ∀ j q, j < k → ps.get? j = some q → searchNumBefore q.1 text = none := by
  intro ps
  induction ps with
  | nil =>
    intro text n u
    constructor
    · intro h
      simp [findRelMatch] at h
    · rintro ⟨k, p, hk, _⟩
      rw [List.get?_nil] at hk
      cases hk
  | cons q qs ih =>
    intro text n u
    obtain ⟨lit, u'⟩ := q
    constructor
    · intro h
      rw [findRelMatch] at h
      cases hS : searchNumBefore lit text with
      | some m =>
        rw [hS] at h
        simp only [Option.some.injEq, Prod.mk.injEq] at h
        obtain ⟨h1, h2⟩ := h
        subst h1
        subst h2
        exact ⟨0, (lit, u'), rfl, rfl, hS, by
          intro j hq hj
          exact absurd hj (by omega)⟩
      | none =>
        rw [hS] at h
        obtain ⟨k, p, hk, hpu, hpn, hear⟩ := (ih text n u).mp h
        refine ⟨k + 1, p, by simpa using hk, hpu, hpn, ?_⟩
        intro j r hj hr
        cases j with
        | zero =>
          rw [List.get?_cons_zero] at hr
          cases hr
          exact hS
        | succ j' =>
          rw [List.get?_cons_succ] at hr
          exact hear j' r (by omega) hr
    · rintro ⟨k, p, hk, hpu, hpn, hear⟩
      rw [findRelMatch]
      cases k with
      | zero =>
        rw [List.get?_cons_zero] at hk
        cases hk
        have hpn' : searchNumBefore lit text = some n := hpn
        have hpu' : u' = u := hpu
        rw [hpn', hpu']
      | succ k' =>
        have hS : searchNumBefore lit text = none :=
          hear 0 (lit, u') (by omega) List.get?_cons_zero
        rw [hS]
        rw [List.get?_cons_succ] at hk
        exact (ih text n u).mpr ⟨k', p, hk, hpu, hpn, fun j r hj hr =>
          hear (j + 1) r (by omega) (by simpa using hr)⟩

/-- A fully failed pattern scan. -/
theorem findRelMatch_none_iff :
    ∀ (ps : List (List Char × RelUnit)) (text : List Char),
      findRelMatch ps text = none ↔ ∀ p ∈ ps, searchNumBefore p.1 text = none := by
  intro ps
  induction ps with
  | nil =>
    intro text
    constructor
    · intro _ p hp
      simp at hp
    · intro _
      rfl
  | cons q qs ih =>
    intro text
    obtain ⟨lit, u'⟩ := q
    constructor
    · intro h p hp
      rw [findRelMatch] at h
      cases hS : searchNumBefore lit text with
      | some m =>
        rw [hS] at h
        cases h
      | none =>
        rw [hS] at h
        rcases List.mem_cons.mp hp with rfl | hp'
        · exact hS
        · exact (ih text).mp h p hp'
    · intro h
      rw [findRelMatch]
      have hS : searchNumBefore lit text = none := h (lit, u') (by simp)
      rw [hS]
      exact (ih text).mpr (fun p hp => h p (by simp [hp]))

/-- Claim C5 amended: for every date string given to the relative-time
step, the unit is selected by the fixed pattern priority hour, hr,
minute, min, day, week, month, year — the first pattern in that order
with an occurrence anywhere in the string wins, all earlier patterns
failing everywhere — and the subtracted count is the integer immediately
preceding the leftmost occurrence of the selected unit pattern (a
nonempty digit run, then whitespace, then the unit token); months and
years subtract calendar-aware, so one month before 2024-03-31 15:04:05
is 2024-02-29 15:04:05, the other units subtract fixed durations; when
no known unit occurs, normalization fails. -/
theorem c5_relative_amended :
    (∀ (now : Nat) (text : List Char),
      parseRelativeTime now text = PyResult.ok none ↔
        ∀ p ∈ relPatterns, searchNumBefore p.1 text = none) ∧
    (∀ (now : Nat) (text : List Char) (n k : Nat) (p : List Char × RelUnit),
      relPatterns.get? k = some p →
      searchNumBefore p.1 text = some n →
      (∀ j q, j < k → relPatterns.get? j = some q →
        searchNumBefore q.1 text = none) →
      parseRelativeTime now text = liftRel (applyRelUnit now n p.2)) ∧
    (∀ (lit text : List Char) (n : Nat),
      searchNumBefore lit text = some n ↔
        ∃ i, numBeforeAt lit (text.drop i) = some n ∧
          ∀ j < i, numBeforeAt lit (text.drop j) = none) ∧
    (∀ p ∈ relPatterns, ∀ (l : List Char) (n : Nat),
      numBeforeAt p.1 l = some n ↔
        ∃ ds ws rest, l = ds ++ (ws ++ rest) ∧ ds ≠ [] ∧ ws ≠ [] ∧
          (∀ c ∈ ds, c.isDigit = true) ∧ (∀ c ∈ ws, isWS c = true) ∧
          (matchLitCI p.1 rest).isSome = true ∧ n = natOfDigits ds) ∧
    subMonthsPy sampleNow 1 = PyResult.ok (mkInstant 2024 2 29 15 4 5) ∧
    (∀ now : Nat, parseRelativeTime now ("1 day 2 hours ago".toList) =
      liftRel (tdSub now 7200)) ∧
    (∀ now : Nat, parseRelativeTime now ("1 day 5 minutes ago".toList) =
      liftRel (tdSub now 300)) ∧
    (∀ now : Nat, parseRelativeTime now ("3 hrs ago".toList) =
      liftRel (tdSub now 10800)) ∧
    (∀ now : Nat, parseRelativeTime now ("10 mins ago".toList) =
      liftRel (tdSub now 600)) ∧
    (∀ now : Nat, parseRelativeTime now ("1 month ago".toList) =
      liftRel (subMonthsPy now 1)) ∧
    (∀ now : Nat, parseRelativeTime now ("2 years ago".toList) =
      liftRel (subYearsPy now 2)) ∧
    (∀ now : Nat, parseRelativeTime now ("3 weeks ago".toList) =
      liftRel (tdSub now (3 * 604800))) ∧
    (∀ now : Nat, parseRelativeTime now ("5 fortnights ago".toList) =
      PyResult.ok none) := by
  refine ⟨?_, ?_, ?_, ?_, by decide, fun _ => rfl, fun _ => rfl, fun _ => rfl,
    fun _ => rfl, fun _ => rfl, fun _ => rfl, fun _ => rfl, fun _ => rfl⟩
  · intro now text
    constructor
    · intro h
      cases hF : findRelMatch relPatterns text with
      | none => exact (findRelMatch_none_iff relPatterns text).mp hF
      | some pr =>
        obtain ⟨m, u⟩ := pr
        exfalso
        simp only [parseRelativeTime, hF] at h
        cases hL : applyRelUnit now m u with
        | ok t =>
          rw [hL] at h
          simp [liftRel] at h
        | exn =>
          rw [hL] at h
          simp [liftRel] at h
    · intro h
      have hF := (findRelMatch_none_iff relPatterns text).mpr h
      rw [parseRelativeTime, hF]
  · intro now text n k p hk hs hear
    have hF : findRelMatch relPatterns text = some (n, p.2) :=
      (findRelMatch_some_iff relPatterns text n p.2).mpr ⟨k, p, hk, rfl, hs, hear⟩
    rw [parseRelativeTime, hF]
  · intro lit text n
    exact searchNumBefore_some_iff lit text n
  · intro p hp l n
    simp only [relPatterns, List.mem_cons, List.not_mem_nil, or_false] at hp
    rcases hp with rfl | rfl | rfl | rfl | rfl | rfl | rfl | rfl
    · exact numBeforeAt_iff 'h' ['o', 'u', 'r'] (by decide) l n
    · exact numBeforeAt_iff 'h' ['r'] (by decide) l n
    · exact numBeforeAt_iff 'm' ['i', 'n', 'u', 't', 'e'] (by decide) l n
    · exact numBeforeAt_iff 'm' ['i', 'n'] (by decide) l n
    · exact numBeforeAt_iff 'd' ['a', 'y'] (by decide) l n
    · exact numBeforeAt_iff 'w' ['e', 'e', 'k'] (by decide) l n
    · exact numBeforeAt_iff 'm' ['o', 'n', 't', 'h'] (by decide) l n
    · exact numBeforeAt_iff 'y' ['e', 'a', 'r'] (by decide) l n


/-! ## Claim C6 -/

/-- Claim C6 counterexample: a date string containing `today` is not
normalized to noon of the current day when it also contains `ago` — the
relative branch runs first and yields the current instant minus 2 hours,
not noon. -/
theorem c6_today_counterexample :
    parseDate (fun _ => none) sampleNow ("2 hours ago today".toList) =
      PyResult.ok (some (sampleNow - 7200)) ∧
    sampleNow - 7200 ≠ noonOf sampleNow := by
  refine ⟨by decide, by decide⟩

/-- Claim C6 amended: for a date string whose cleaned form contains
`today` but not `ago`, normalization returns noon of the current day;
for one whose cleaned form contains `yesterday` but neither `ago` nor
`today`, noon of the previous day. -/
theorem c6_today_amended :
    ∀ (oracle : List Char → Option Nat) (now : Nat) (s : List Char),
      (hasSub ("ago".toList) (lcList (cleanDateText s)) = false →
       hasSub ("today".toList) (lcList (cleanDateText s)) = true →
       parseDate oracle now s = PyResult.ok (some (noonOf now))) ∧
      (hasSub ("ago".toList) (lcList (cleanDateText s)) = false →
       hasSub ("today".toList) (lcList (cleanDateText s)) = false →
       hasSub ("yesterday".toList) (lcList (cleanDateText s)) = true →
       parseDate oracle now s = PyResult.ok (some (noonOf (now - 86400)))) := by
  have hnil : ∀ s : List Char, trimWS s = [] → cleanDateText s = [] := by
    intro s h
    simp only [cleanDateText, h]
    decide
  intro oracle now s
  constructor
  · intro h1 h2
    by_cases hE : trimWS s = []
    · rw [hnil s hE] at h2
      exact absurd h2 (by decide)
    · have h1' : hasSub ['a', 'g', 'o'] (lcList (cleanDateText s)) = false := h1
      have h2' : hasSub ['t', 'o', 'd', 'a', 'y'] (lcList (cleanDateText s)) = true := h2
      simp [parseDate, hE, h1', h2']
  · intro h1 h2 h3
    by_cases hE : trimWS s = []
    · rw [hnil s hE] at h3
      exact absurd h3 (by decide)
    · have h1' : hasSub ['a', 'g', 'o'] (lcList (cleanDateText s)) = false := h1
      have h2' : hasSub ['t', 'o', 'd', 'a', 'y'] (lcList (cleanDateText s)) = false := h2
      have h3' : hasSub ['y', 'e', 's', 't', 'e', 'r', 'd', 'a', 'y']
          (lcList (cleanDateText s)) = true := h3
      simp [parseDate, hE, h1', h2', h3']

/-- Concrete instances through `c6_today_amended`: `"today"` maps to noon
of the current day and `"yesterday"` to noon of the previous day. -/
theorem c6_today_amended_witness :
    parseDate (fun _ => none) 200000 ("today".toList) =
      PyResult.ok (some (noonOf 200000)) ∧
    parseDate (fun _ => none) 200000 ("yesterday".toList) =
      PyResult.ok (some (noonOf (200000 - 86400))) :=
  ⟨(c6_today_amended (fun _ => none) 200000 ("today".toList)).1 (by decide) (by decide),
   (c6_today_amended (fun _ => none) 200000 ("yesterday".toList)).2
     (by decide) (by decide) (by decide)⟩

/-! ## Claim C7 -/

/-- Claim C7 counterexample: the source coerces every non-today fuzzy
parse to noon, even one that carried an explicit time-of-day, where the
spec's conditioned rule would keep the parsed time. -/
theorem c7_fuzzy_counterexample :
    fuzzyPost sampleNow (mkInstant 2024 9 30 8 15 0) = mkInstant 2024 9 30 12 0 0 ∧
    specFuzzyPost sampleNow (mkInstant 2024 9 30 8 15 0) true =
      mkInstant 2024 9 30 8 15 0 ∧
    mkInstant 2024 9 30 12 0 0 ≠ mkInstant 2024 9 30 8 15 0 := by
  refine ⟨by decide, by decide, by decide⟩

/-- Claim C7 amended: after a successful fuzzy parse (a naive result
being localized to the configured zone), a result dated today keeps its
parsed time-of-day, and a result on any other date is coerced to noon of
that same date unconditionally, whether or not an explicit time was
parsed. -/
theorem c7_fuzzy_amended :
    ∀ now dt : Nat,
      (dayOf dt = dayOf now → fuzzyPost now dt = dt) ∧
      (dayOf dt ≠ dayOf now →
        fuzzyPost now dt = noonOf dt ∧
        dayOf (fuzzyPost now dt) = dayOf dt ∧
        todOf (fuzzyPost now dt) = 43200) := by
  intro now dt
  constructor
  · intro h
    simp [fuzzyPost, h]
  · intro h
    have he : fuzzyPost now dt = noonOf dt := by
      simp [fuzzyPost, h]
    refine ⟨he, ?_, ?_⟩
    · rw [he]
      simp only [noonOf, dayOf]
      omega
    · rw [he]
      simp only [noonOf, todOf, dayOf]
      omega

/-- Concrete instances through `c7_fuzzy_amended`: a same-day instant is
kept, a different-day instant is coerced to noon. -/
theorem c7_fuzzy_amended_witness :
    fuzzyPost 200000 201000 = 201000 ∧ fuzzyPost 200000 100 = noonOf 100 :=
  ⟨(c7_fuzzy_amended 200000 201000).1 (by decide),
   ((c7_fuzzy_amended 200000 100).2 (by decide)).1⟩

/-! ## Claim C8 -/

/-- Claim C8: in the manual `D/D/YYYY` fallback the normalizer first
builds (year, part1-as-month, part2-as-day) and on an invalid-date error
swaps to (year, part2-as-month, part1-as-day); both interpretations carry
noon as time-of-day; `"13/09/2024"` resolves to September 13 because
month 13 is impossible in the first interpretation. -/
theorem c8_slash_fallback :
    (∀ (l : List Char) (p1 p2 y : Nat),
      monthMatch (trimWS l) = none → slashMatch (trimWS l) = some (p1, p2, y) →
      (mkNoonOpt y p1 p2 ≠ none → manualParse l = mkNoonOpt y p1 p2) ∧
      (mkNoonOpt y p1 p2 = none → manualParse l = mkNoonOpt y p2 p1)) ∧
    (∀ y m d dt : Nat, mkNoonOpt y m d = some dt → todOf dt = 43200) ∧
    mkNoonOpt 2024 13 9 = none ∧
    manualParse ("13/09/2024".toList) = some (mkInstant 2024 9 13 12 0 0) ∧
    manualParse ("03/04/2024".toList) = some (mkInstant 2024 3 4 12 0 0) := by
  refine ⟨?_, ?_, by decide, by decide, by decide⟩
  · intro l p1 p2 y hm hs
    constructor
    · intro hne
      obtain ⟨dt, hdt⟩ : ∃ dt, mkNoonOpt y p1 p2 = some dt := by
        cases hv : mkNoonOpt y p1 p2 with
        | none => exact absurd hv hne
        | some dt => exact ⟨dt, rfl⟩
      simp only [manualParse, hm, hs, hdt]
    · intro hnone
      simp only [manualParse, hm, hs, hnone]
  · intro y m d dt h
    rw [mkNoonOpt] at h
    split at h
    · cases h
      simp only [todOf, mkInstant]
      omega
    · cases h

/-- Concrete swap instances through `c8_slash_fallback`: `"03/04/2024"`
has a valid first (month, day) reading and keeps it; `"31/12/2024"` has
no month-31 reading and resolves by the swap rule; a valid noon
construction carries time-of-day 43200 s. -/
theorem c8_slash_fallback_witness :
    manualParse ("03/04/2024".toList) = mkNoonOpt 2024 3 4 ∧
    manualParse ("31/12/2024".toList) = mkNoonOpt 2024 12 31 ∧
    todOf (mkInstant 2024 12 31 12 0 0) = 43200 :=
  ⟨(c8_slash_fallback.1 ("03/04/2024".toList) 3 4 2024 (by decide) (by decide)).1
      (by decide),
   (c8_slash_fallback.1 ("31/12/2024".toList) 31 12 2024 (by decide) (by decide)).2
      (by decide),
   c8_slash_fallback.2.1 2024 12 31 (mkInstant 2024 12 31 12 0 0) (by decide)⟩

/-! ## Claim C9 -/

/-- Claim C9 counterexample: date normalization is not exception-free on
every input — a relative phrase whose quantity exceeds the `timedelta`
bound raises an uncaught overflow out of `parse_date` (the per-record
extraction guard upstream absorbs it). -/
theorem c9_total_counterexample :
    parseDate (fun _ => none) sampleNow ("999999999999 hours ago".toList) =
      PyResult.exn := by
  decide

/-- Claim C9 amended: for every input string not taking the relative
`ago` branch, normalization returns an instant or an absent value without
raising; unparsable text such as `"xyzzy"` yields an absent instant when
the permissive parser fails on it; a record whose normalization failed is
retained with an absent published instant and an absent display date,
shown as `"N/A"`.  Only an out-of-range relative quantity in the `ago`
branch can raise. -/
theorem c9_total_amended :
    (∀ (oracle : List Char → Option Nat) (now : Nat) (s : List Char),
      hasSub ("ago".toList) (lcList (cleanDateText s)) = false →
      ∃ r : Option Nat, parseDate oracle now s = PyResult.ok r) ∧
    (∀ (oracle : List Char → Option Nat) (now : Nat),
      oracle ("xyzzy".toList) = none →
      parseDate oracle now ("xyzzy".toList) = PyResult.ok none) ∧
    extractDateFields none = (none, none) ∧
    formatDateForDisplay none = "N/A" := by
  refine ⟨?_, ?_, rfl, rfl⟩
  · intro oracle now s h
    by_cases hE : trimWS s = []
    · exact ⟨none, by simp [parseDate, hE]⟩
    · have h' : hasSub ['a', 'g', 'o'] (lcList (cleanDateText s)) = false := h
      cases hT : hasSub ['t', 'o', 'd', 'a', 'y'] (lcList (cleanDateText s)) with
      | true => exact ⟨some (noonOf now), by simp [parseDate, hE, h', hT]⟩
      | false =>
        cases hY : hasSub ['y', 'e', 's', 't', 'e', 'r', 'd', 'a', 'y']
            (lcList (cleanDateText s)) with
        | true =>
          exact ⟨some (noonOf (now - 86400)), by simp [parseDate, hE, h', hT, hY]⟩
        | false =>
          cases hO : oracle (cleanDateText s) with
          | some dt =>
            exact ⟨some (fuzzyPost now dt), by simp [parseDate, hE, h', hT, hY, hO]⟩
          | none =>
            exact ⟨manualParse (cleanDateText s), by simp [parseDate, hE, h', hT, hY, hO]⟩
  · intro oracle now h
    rw [parseDate, if_neg (by decide : ¬ trimWS ("xyzzy".toList) = [])]
    rw [show cleanDateText ("xyzzy".toList) = "xyzzy".toList from by decide]
    rw [if_neg (by decide : ¬ hasSub ("ago".toList) (lcList ("xyzzy".toList)) = true)]
    rw [if_neg (by decide : ¬ hasSub ("today".toList) (lcList ("xyzzy".toList)) = true)]
    rw [if_neg (by decide : ¬ hasSub ("yesterday".toList) (lcList ("xyzzy".toList)) = true)]
    rw [h]
    show PyResult.ok (manualParse ("xyzzy".toList)) = PyResult.ok none
    decide

/-- Concrete instances through `c9_total_amended`: a non-`ago` string
normalizes without an exception, and `"xyzzy"` yields an absent instant. -/
theorem c9_total_amended_witness :
    (∃ r : Option Nat, parseDate (fun _ => none) 200000 ("hello world".toList) =
      PyResult.ok r) ∧
    parseDate (fun _ => none) 200000 ("xyzzy".toList) = PyResult.ok none :=
  ⟨c9_total_amended.1 (fun _ => none) 200000 ("hello world".toList) (by decide),
   c9_total_amended.2.1 (fun _ => none) 200000 rfl⟩

/-! ## Claim C10 -/

/-- Claim C10 counterexample: a string matching the `Month DD, YYYY`
shape with an unrecognized month word does not always succeed with a
January substitution — a day invalid for January (here 40) makes the
`datetime` construction raise, and normalization fails instead. -/
theorem c10_month_counterexample :
    monthMatch ("Foo 40, 2024".toList) = some ("Foo".toList, 40, 2024) ∧
    monthLookup ("Foo".toList) = 1 ∧
    manualParse ("Foo 40, 2024".toList) = none := by
  refine ⟨by decide, by decide, by decide⟩

/-- Claim C10 amended: in the manual `Month DD, YYYY` fallback, a string
of that shape whose month word is not a recognized month name is parsed
with month 1 (January) silently substituted, yielding January DD at noon
of the matched year, provided DD is a valid day of January and the year
is within the `datetime` range; otherwise the construction raises and
normalization fails. -/
theorem c10_month_amended :
    ∀ (l w : List Char) (d y : Nat),
      monthMatch (trimWS l) = some (w, d, y) →
      monthDict.lookup (lcList w) = none →
      1 ≤ y → y ≤ 9999 → 1 ≤ d → d ≤ 31 →
      manualParse l = some (mkInstant y 1 d 12 0 0) := by
  intro l w d y hm hlk hy1 hy2 hd1 hd2
  have hmn : monthLookup w = 1 := by
    simp [monthLookup, hlk]
  simp only [manualParse, hm, hmn, mkNoonOpt]
  rw [if_pos]
  refine ⟨hy1, hy2, by omega, by omega, hd1, ?_⟩
  simpa [daysInMonth] using hd2

/-- Concrete instance through `c10_month_amended`: `"Xyz 15, 2024"` parses
as January 15, 2024 at noon. -/
theorem c10_month_amended_witness :
    manualParse ("Xyz 15, 2024".toList) = some (mkInstant 2024 1 15 12 0 0) :=
  c10_month_amended ("Xyz 15, 2024".toList) ("Xyz".toList) 15 2024
    (by decide) (by decide) (by decide) (by decide) (by decide) (by decide)

/-- Concrete instance through `c2_load_amended`: a full configuration
with an extra unknown field is accepted unchanged. -/
theorem c2_load_amended_witness :
    loadConfig ⟨["base_url", "article", "limit"], ["container", "link", "title", "limit"]⟩ =
      some ⟨["base_url", "article", "limit"], ["container", "link", "title", "limit"]⟩ :=
  c2_load_amended.2 "limit"

/-- Concrete instances through `c5_relative_amended`, discharging its
hypotheses: the hour pattern is the selected priority-0 pattern on
`"2 hours ago"`, and the head match there decomposes as the digit run
`2`, one space, and the unit token. -/
theorem c5_relative_amended_witness :
    parseRelativeTime 400000 ("2 hours ago".toList) =
      liftRel (applyRelUnit 400000 2 RelUnit.hours) ∧
    numBeforeAt ("hour".toList) ("2 hours ago".toList) = some 2 :=
  ⟨c5_relative_amended.2.1 400000 ("2 hours ago".toList) 2 0
      ("hour".toList, RelUnit.hours) (by decide) (by decide)
      (by
        intro j q hj _
        exact absurd hj (by omega)),
   (c5_relative_amended.2.2.2.1 ("hour".toList, RelUnit.hours) (by decide)
      ("2 hours ago".toList) 2).mpr
     ⟨['2'], [' '], "hours ago".toList, by decide, by decide, by decide,
      by decide, by decide, by decide, by decide⟩⟩
